import Mathlib

/-
Verification development for the quiz-bank parser in functionPDF.py.

The parser consumes an ordered sequence of paragraph texts and emits a list
of Question records.  Strings are modelled as lists of characters (`Str`),
Python regular expressions as explicit character-level matching functions,
and the line loop of `parse_docx` as a left fold over a parse-state record.
-/

namespace MoocPDF

abbrev Str := List Char

/-- Whitespace characters recognised by Python's `\s` / `str.strip` on the
ASCII range (the inputs contain no exotic Unicode whitespace). -/
def pySpace (c : Char) : Bool :=
  c == ' ' || c == '\t' || c == '\n' || c == '\r' || c == '\x0b' || c == '\x0c'

/-- ASCII upper-casing, as Python's `str.upper` acts on the characters that
occur in this program (CJK characters are fixed points). -/
def charUpper : Char → Char
  | 'a' => 'A' | 'b' => 'B' | 'c' => 'C' | 'd' => 'D' | 'e' => 'E'
  | 'f' => 'F' | 'g' => 'G' | 'h' => 'H' | 'i' => 'I' | 'j' => 'J'
  | 'k' => 'K' | 'l' => 'L' | 'm' => 'M' | 'n' => 'N' | 'o' => 'O'
  | 'p' => 'P' | 'q' => 'Q' | 'r' => 'R' | 's' => 'S' | 't' => 'T'
  | 'u' => 'U' | 'v' => 'V' | 'w' => 'W' | 'x' => 'X' | 'y' => 'Y'
  | 'z' => 'Z'
  | c   => c

/-- `str.upper`. -/
def upperStr (s : Str) : Str := s.map charUpper

/-- Drop trailing characters satisfying `pySpace` would need a reverse;
instead a direct structural recursion. -/
def dropTrail : Str → Str
  | [] => []
  | c :: cs =>
    let r := dropTrail cs
    if r = [] ∧ pySpace c then [] else c :: r

/-- `str.strip()`. -/
def strip (s : Str) : Str := dropTrail (s.dropWhile pySpace)

/-- Characters of the `LEAD_JUNK` class `[\s、，,．\.]`. -/
def leadJunkChar (c : Char) : Bool :=
  pySpace c || c == '、' || c == '，' || c == ',' || c == '．' || c == '.'

/-- `LEAD_JUNK.sub("", s)`: the pattern is anchored at the start, so only the
leading run of junk characters is removed. -/
def lead_junk_sub (s : Str) : Str := s.dropWhile leadJunkChar

/-- Separator class `[\s\.\、\．\)\）]` of `Q_HEAD`. -/
def isHeadSep (c : Char) : Bool :=
  pySpace c || c == '.' || c == '、' || c == '．' || c == ')' || c == '）'

/-- The `(\d+)[\s\.\、\．\)\）]\s*(.*)` tail of `Q_HEAD`: a maximal digit run,
one separator, skipped whitespace, then the remainder as group 2. -/
def headFrom (s : Str) : Option (Str × Str) :=
  let ds := s.takeWhile Char.isDigit
  let r := s.dropWhile Char.isDigit
  if ds.isEmpty then none
  else
    match r with
    | [] => none
    | c :: rest => if isHeadSep c then some (ds, rest.dropWhile pySpace) else none

/-- `Q_HEAD.match(txt)` for `^\s*(?:Q\s*)?(\d+)[\s\.\、\．\)\）]\s*(.*)` with
re.I: returns `(group 1, group 2)`.  When the optional `Q` branch fails the
regex engine retries without it, which necessarily fails on a leading `Q`. -/
def q_head_match (txt : Str) : Option (Str × Str) :=
  let s1 := txt.dropWhile pySpace
  match s1 with
  | [] => none
  | c :: rest =>
    if c == 'Q' || c == 'q' then
      match headFrom (rest.dropWhile pySpace) with
      | some r => some r
      | none => headFrom s1
    else headFrom s1

/-- `OPT_PAT.match(txt)` for `^\s*[A-E][\s\.\、]` with re.I. -/
def opt_pat_match (txt : Str) : Bool :=
  match txt.dropWhile pySpace with
  | a :: b :: _ =>
    (('A' ≤ a && a ≤ 'E') || ('a' ≤ a && a ≤ 'e')) &&
      (pySpace b || b == '.' || b == '、')
  | _ => false

/-- Case-insensitive literal match: `pat` is given upper-cased; on success
returns the remaining subject. -/
def matchCI : Str → Str → Option Str
  | [], s => some s
  | _, [] => none
  | p :: ps, c :: cs => if charUpper c == p then matchCI ps cs else none

/-- The label alternation `(?:答案|参考答案|answer|key|correct\s*answer)` of
`ANS_PAT` (re.I).  The alternatives start with pairwise distinct characters,
so at any position at most one can match and no backtracking arises. -/
def matchLabel (s : Str) : Option Str :=
  match matchCI ['答', '案'] s with
  | some r => some r
  | none =>
    match matchCI ['参', '考', '答', '案'] s with
    | some r => some r
    | none =>
      match matchCI ['A', 'N', 'S', 'W', 'E', 'R'] s with
      | some r => some r
      | none =>
        match matchCI ['K', 'E', 'Y'] s with
        | some r => some r
        | none =>
          match matchCI ['C', 'O', 'R', 'R', 'E', 'C', 'T'] s with
          | some r => matchCI ['A', 'N', 'S', 'W', 'E', 'R'] (r.dropWhile pySpace)
          | none => none

/-- The captured group `([A-E]|正确|错误|对|错)` of `ANS_PAT` (re.I), tried in
alternation order; returns the captured token and the remaining subject. -/
def tokenMatch : Str → Option (Str × Str)
  | [] => none
  | c :: cs =>
    if ('A' ≤ c && c ≤ 'E') || ('a' ≤ c && c ≤ 'e') then some ([c], cs)
    else if c == '正' then
      match cs with
      | d :: r => if d == '确' then some (['正', '确'], r) else none
      | [] => none
    else if c == '错' then
      match cs with
      | d :: r => if d == '误' then some (['错', '误'], r) else some (['错'], cs)
      | [] => some (['错'], cs)
    else if c == '对' then some (['对'], cs)
    else none

/-- Greedy optional single character from a class (`[..]?`): the classes that
occur are disjoint from everything matched later, so greediness is exact. -/
def skipOpt (cls : List Char) (s : Str) : Str :=
  match s with
  | c :: r => if cls.contains c then r else s
  | [] => s

/-- After the label, `\s*[:：—\-]?\s*[\(（]?\s*(token)\s*[\)）]?`: returns the
captured token and the subject following the whole match. -/
def ansTail (s : Str) : Option (Str × Str) :=
  let s1 := s.dropWhile pySpace
  let s2 := skipOpt [':', '：', '—', '-'] s1
  let s3 := s2.dropWhile pySpace
  let s4 := skipOpt ['(', '（'] s3
  let s5 := s4.dropWhile pySpace
  match tokenMatch s5 with
  | none => none
  | some (tok, r) =>
    let r1 := r.dropWhile pySpace
    let r2 := skipOpt [')', '）'] r1
    some (tok, r2)

/-- A full `ANS_PAT` match attempt at the current position. -/
def ansMatchAt (s : Str) : Option (Str × Str) :=
  match matchLabel s with
  | some r => ansTail r
  | none => none

/-- `ANS_PAT.search(txt)`: leftmost match, returning the captured group. -/
def ans_pat_search : Str → Option Str
  | [] => none
  | c :: rest =>
    match ansMatchAt (c :: rest) with
    | some (tok, _) => some tok
    | none => ans_pat_search rest

/-- Worker for `ANS_PAT.sub("", txt)`: removes every non-overlapping match,
scanning left to right.  Each step consumes at least one character, so fuel
equal to the subject length suffices. -/
def ansSubAux : Nat → Str → Str
  | 0, s => s
  | _ + 1, [] => []
  | fuel + 1, c :: rest =>
    match ansMatchAt (c :: rest) with
    | some (_, after) => ansSubAux fuel after
    | none => c :: ansSubAux fuel rest

/-- `ANS_PAT.sub("", txt)`. -/
def ans_pat_sub (txt : Str) : Str := ansSubAux txt.length txt

/-- `re.fullmatch(r"(?:[A-D]|正确|错误|对|错)", txt, re.I)` as a Bool. -/
def bare_ans_match (txt : Str) : Bool :=
  (match txt with
   | [c] => ('A' ≤ c && c ≤ 'D') || ('a' ≤ c && c ≤ 'd')
   | _ => false)
  || txt == ['正', '确'] || txt == ['错', '误'] || txt == ['对'] || txt == ['错']

/-- The `TF_MAP` synonym table. -/
def TF_MAP : List (Str × Str) :=
  [(['正', '确'], ['A']), (['对'], ['A']),
   (['E', 'R', 'R', 'O', 'R'], ['B']),
   (['错', '误'], ['B']), (['错'], ['B']),
   (['T', 'R', 'U', 'E'], ['A']), (['T'], ['A']),
   (['F', 'A', 'L', 'S', 'E'], ['B']), (['F'], ['B'])]

/-- `tidy_tf(ans_raw)`: strip, upper-case, look the token up in `TF_MAP`,
falling back to the first character. -/
def tidy_tf (ans_raw : Str) : Str :=
  let s := upperStr (strip ans_raw)
  match TF_MAP.lookup s with
  | some v => v
  | none => s.take 1

/-- The Question dataclass. -/
structure Question where
  qid : Str
  stem : Str
  options : List Str
  answer : Str
  qtype : Str
deriving DecidableEq, Repr

/-- `build(idx, stem, opts, ans_raw)`. -/
def build (idx stem : Str) (opts : List Str) (ans_raw : Str) : Question :=
  let stem1 := lead_junk_sub (strip stem)
  let qtype := if opts.length > 2 then ['m', 'c'] else ['t', 'f']
  let ans0 := upperStr ans_raw
  let ans := if qtype == ['t', 'f'] then tidy_tf ans0 else ans0
  { qid := idx, stem := strip stem1, options := opts, answer := ans, qtype := qtype }

/-- The mutable accumulation state of the `parse_docx` loop. -/
structure St where
  qs : List Question
  idx : Option Str
  stem : Str
  opts : List Str
  ans : Str
deriving DecidableEq, Repr

/-- Python truthiness of the `idx` variable (`None` or a string). -/
def optTruthy : Option Str → Bool
  | none => false
  | some s => !s.isEmpty

/-- The commit guard `if idx and ans: qs.append(build(idx, stem, opts, ans))`,
shared by the header branch and the end-of-input epilogue. -/
def commitQs (st : St) : List Question :=
  match st.idx with
  | none => st.qs
  | some i => if !i.isEmpty && !st.ans.isEmpty then st.qs ++ [build i st.stem st.opts st.ans] else st.qs

/-- The header branch of the loop: commit the previous question, open a new
one, and split an inline answer marker out of the remainder. -/
def headerStep (st : St) (g rest : Str) : St :=
  match ans_pat_search rest with
  | some tok =>
    { qs := commitQs st, idx := some g,
      stem := lead_junk_sub (strip (ans_pat_sub rest)),
      opts := [], ans := strip tok }
  | none =>
    { qs := commitQs st, idx := some g, stem := rest, opts := [], ans := [] }

/-- One iteration of the loop body of `parse_docx` on an already stripped,
non-empty line: the priority cascade header / answer marker / option /
bare answer / stem continuation. -/
def stepLine (st : St) (txt : Str) : St :=
  match q_head_match txt with
  | some (g, rest) => headerStep st g rest
  | none =>
    match ans_pat_search txt with
    | some tok =>
      { st with ans := strip tok,
                opts := if opt_pat_match txt then st.opts ++ [strip (ans_pat_sub txt)] else st.opts }
    | none =>
      if opt_pat_match txt then { st with opts := st.opts ++ [txt] }
      else if optTruthy st.idx && st.ans.isEmpty && bare_ans_match txt then
        { st with ans := txt }
      else { st with stem := st.stem ++ (' ' :: txt) }

/-- One iteration on a raw paragraph: strip it and skip it when blank. -/
def stepPara (st : St) (para : Str) : St :=
  let txt := strip para
  if txt.isEmpty then st else stepLine st txt

/-- The initial state: `idx = None`, all accumulators empty. -/
def initSt : St := { qs := [], idx := none, stem := [], opts := [], ans := [] }

/-- The end-of-input epilogue of `parse_docx`. -/
def finalize (st : St) : List Question := commitQs st

/-- `parse_docx`, parameterised by the paragraph texts the docx reader
yields. -/
def parse_docx (paras : List Str) : List Question :=
  finalize (paras.foldl stepPara initSt)


/-! ### Character-level facts -/

theorem pySpace_charUpper (c : Char) : pySpace (charUpper c) = pySpace c := by
  unfold charUpper
  split <;> rfl

theorem charUpper_mem (c : Char) :
    charUpper c = c ∨ charUpper c ∈
      ['A','B','C','D','E','F','G','H','I','J','K','L','M',
       'N','O','P','Q','R','S','T','U','V','W','X','Y','Z'] := by
  unfold charUpper
  split <;> first | (left; rfl) | (right; decide)

theorem charUpper_idem (c : Char) : charUpper (charUpper c) = charUpper c := by
  rcases charUpper_mem c with h | h
  · rw [h]; exact h
  · have hfix : ∀ d ∈ ['A','B','C','D','E','F','G','H','I','J','K','L','M',
       'N','O','P','Q','R','S','T','U','V','W','X','Y','Z'], charUpper d = d := by decide
    exact hfix _ h

theorem pySpace_cases {c : Char} (h : pySpace c = true) :
    c = ' ' ∨ c = '\t' ∨ c = '\n' ∨ c = '\r' ∨ c = '\x0b' ∨ c = '\x0c' := by
  simpa [pySpace, or_assoc] using h

theorem letterAE_nospace {c : Char}
    (h : (('A' ≤ c && c ≤ 'E') || ('a' ≤ c && c ≤ 'e')) = true) : pySpace c = false := by
  cases hs : pySpace c with
  | false => rfl
  | true =>
    rcases pySpace_cases hs with rfl | rfl | rfl | rfl | rfl | rfl <;>
      exact absurd h (by decide)

/-! ### strip and upperStr -/

theorem dropTrail_cons_nospace {c : Char} (cs : Str) (h : pySpace c = false) :
    dropTrail (c :: cs) = c :: dropTrail cs := by
  simp [dropTrail, h]

theorem dropTrail_idem (l : Str) : dropTrail (dropTrail l) = dropTrail l := by
  induction l with
  | nil => rfl
  | cons c cs ih =>
    by_cases h : dropTrail cs = [] ∧ pySpace c
    · have e1 : dropTrail (c :: cs) = [] := by simp [dropTrail, h.1, h.2]
      rw [e1]; rfl
    · have e1 : dropTrail (c :: cs) = c :: dropTrail cs := by
        simp only [dropTrail]
        rw [if_neg h]
      rw [e1]
      simp only [dropTrail]
      rw [ih, if_neg h]

theorem dropWhile_self_idem (p : Char → Bool) (l : Str) :
    (l.dropWhile p).dropWhile p = l.dropWhile p := by
  cases h : l.dropWhile p with
  | nil => rfl
  | cons c cs =>
    have hc : p c = false := by
      have := List.head_dropWhile_not p l (by simp [h])
      simpa [h] using this
    simp [List.dropWhile_cons, hc]

theorem dropWhile_dropTrail (l : Str) (h : l.dropWhile pySpace = l) :
    (dropTrail l).dropWhile pySpace = dropTrail l := by
  cases l with
  | nil => rfl
  | cons c cs =>
    have hc : pySpace c = false := by
      by_cases hpc : pySpace c = true
      · rw [List.dropWhile_cons, if_pos hpc] at h
        have hsub : List.Sublist (List.dropWhile pySpace cs) cs := List.dropWhile_sublist pySpace
        have := hsub.length_le
        have h2 := congrArg List.length h
        simp at h2
        omega
      · simpa using hpc
    rw [dropTrail_cons_nospace cs hc]
    simp [List.dropWhile_cons, hc]

theorem strip_idem (s : Str) : strip (strip s) = strip s := by
  unfold strip
  rw [dropWhile_dropTrail _ (dropWhile_self_idem pySpace s), dropTrail_idem]

theorem dropTrail_eq_self (l : Str) (h : ∀ c ∈ l, pySpace c = false) : dropTrail l = l := by
  induction l with
  | nil => rfl
  | cons c cs ih =>
    have hc : pySpace c = false := h c (by simp)
    rw [dropTrail_cons_nospace cs hc, ih (fun x hx => h x (by simp [hx]))]

theorem strip_eq_self (l : Str) (h : ∀ c ∈ l, pySpace c = false) : strip l = l := by
  unfold strip
  have h1 : l.dropWhile pySpace = l := by
    cases l with
    | nil => rfl
    | cons c cs => simp [List.dropWhile_cons, h c (by simp)]
  rw [h1, dropTrail_eq_self l h]

theorem dropTrail_map_upper (l : Str) :
    dropTrail (l.map charUpper) = (dropTrail l).map charUpper := by
  induction l with
  | nil => rfl
  | cons c cs ih =>
    by_cases h : dropTrail cs = [] ∧ pySpace c = true
    · have h1 : dropTrail (c :: cs) = [] := by simp [dropTrail, h.1, h.2]
      have h2 : dropTrail (charUpper c :: List.map charUpper cs) = [] := by
        simp [dropTrail, ih, h.1, pySpace_charUpper, h.2]
      simp [List.map_cons, h2, h1]
    · have h1 : dropTrail (c :: cs) = c :: dropTrail cs := by
        simp only [dropTrail]
        rw [if_neg h]
      have h2 : dropTrail (charUpper c :: List.map charUpper cs) =
          charUpper c :: dropTrail (List.map charUpper cs) := by
        simp only [dropTrail]
        rw [if_neg]
        intro hc
        apply h
        refine ⟨?_, ?_⟩
        · have hx := hc.1
          rw [ih] at hx
          simpa using hx
        · rw [← pySpace_charUpper c]
          exact hc.2
      rw [List.map_cons, h2, h1, ih, List.map_cons]

theorem strip_upperStr (s : Str) : strip (upperStr s) = upperStr (strip s) := by
  unfold strip upperStr
  rw [List.dropWhile_map, dropTrail_map_upper]
  have hp : (pySpace ∘ charUpper) = pySpace := by
    funext c
    exact pySpace_charUpper c
  rw [hp]

theorem upperStr_idem (s : Str) : upperStr (upperStr s) = upperStr s := by
  simp [upperStr, List.map_map, Function.comp, charUpper_idem]

theorem upperStr_ne_nil {s : Str} (h : s ≠ []) : upperStr s ≠ [] := by
  simp only [upperStr, ne_eq, List.map_eq_nil_iff]
  exact h

/-! ### Captured answer tokens are non-empty and whitespace-free -/

theorem tokenMatch_nospace {s tok r : Str} (h : tokenMatch s = some (tok, r)) :
    tok ≠ [] ∧ ∀ c ∈ tok, pySpace c = false := by
  cases s with
  | nil => simp [tokenMatch] at h
  | cons c cs =>
    simp only [tokenMatch] at h
    by_cases h1 : (('A' ≤ c && c ≤ 'E') || ('a' ≤ c && c ≤ 'e')) = true
    · rw [if_pos h1] at h
      rw [Option.some.injEq, Prod.mk.injEq] at h
      obtain ⟨h2, _⟩ := h
      subst h2
      refine ⟨by simp, ?_⟩
      intro x hx
      simp only [List.mem_singleton] at hx
      subst hx
      exact letterAE_nospace h1
    · rw [if_neg h1] at h
      by_cases h2 : c = '正'
      · subst h2
        rw [if_pos (show ('正' == '正') = true from rfl)] at h
        cases cs with
        | nil => simp at h
        | cons d r2 =>
          replace h : (if (d == '确') = true then some ((['正', '确'], r2) : Str × Str)
              else none) = some (tok, r) := h
          by_cases h3 : d = '确'
          · subst h3
            rw [if_pos (show ('确' == '确') = true from rfl)] at h
            rw [Option.some.injEq, Prod.mk.injEq] at h
            obtain ⟨h4, _⟩ := h
            subst h4
            exact ⟨by decide, by decide⟩
          · rw [if_neg (by simp [h3])] at h
            simp at h
      · rw [if_neg (by simp [h2])] at h
        by_cases h3 : c = '错'
        · subst h3
          rw [if_pos (show ('错' == '错') = true from rfl)] at h
          cases cs with
          | nil =>
            replace h : some ((['错'], []) : Str × Str) = some (tok, r) := h
            rw [Option.some.injEq, Prod.mk.injEq] at h
            obtain ⟨h4, _⟩ := h
            subst h4
            exact ⟨by decide, by decide⟩
          | cons d r2 =>
            replace h : (if (d == '误') = true then some ((['错', '误'], r2) : Str × Str)
                else some ((['错'], d :: r2) : Str × Str)) = some (tok, r) := h
            by_cases h4 : d = '误'
            · subst h4
              rw [if_pos (show ('误' == '误') = true from rfl)] at h
              rw [Option.some.injEq, Prod.mk.injEq] at h
              obtain ⟨h5, _⟩ := h
              subst h5
              exact ⟨by decide, by decide⟩
            · rw [if_neg (by simp [h4])] at h
              rw [Option.some.injEq, Prod.mk.injEq] at h
              obtain ⟨h5, _⟩ := h
              subst h5
              exact ⟨by decide, by decide⟩
        · rw [if_neg (by simp [h3])] at h
          by_cases h4 : c = '对'
          · subst h4
            rw [if_pos (show ('对' == '对') = true from rfl)] at h
            rw [Option.some.injEq, Prod.mk.injEq] at h
            obtain ⟨h5, _⟩ := h
            subst h5
            exact ⟨by decide, by decide⟩
          · rw [if_neg (by simp [h4])] at h
            simp at h

theorem ansTail_token {s tok r : Str} (h : ansTail s = some (tok, r)) :
    ∃ u v, tokenMatch u = some (tok, v) := by
  simp only [ansTail] at h
  split at h
  · exact absurd h (by simp)
  · rename_i tok2 r2 heq
    rw [Option.some.injEq, Prod.mk.injEq] at h
    obtain ⟨h1, _⟩ := h
    subst h1
    exact ⟨_, _, heq⟩

theorem ansMatchAt_token {s tok r : Str} (h : ansMatchAt s = some (tok, r)) :
    ∃ u v, tokenMatch u = some (tok, v) := by
  unfold ansMatchAt at h
  split at h
  · exact ansTail_token h
  · exact absurd h (by simp)

theorem ans_pat_search_token {txt tok : Str} (h : ans_pat_search txt = some tok) :
    ∃ u v, tokenMatch u = some (tok, v) := by
  induction txt with
  | nil => simp [ans_pat_search] at h
  | cons c cs ih =>
    unfold ans_pat_search at h
    split at h
    · rename_i tok2 r2 heq
      rw [Option.some.injEq] at h
      subst h
      exact ansMatchAt_token heq
    · exact ih h

theorem ans_pat_search_strip {txt tok : Str} (h : ans_pat_search txt = some tok) :
    strip tok = tok ∧ tok ≠ [] := by
  obtain ⟨u, v, hu⟩ := ans_pat_search_token h
  obtain ⟨hne, hsp⟩ := tokenMatch_nospace hu
  exact ⟨strip_eq_self tok hsp, hne⟩

/-! ### TF_MAP lookups -/

theorem lookup_mem_snd {α β : Type} [BEq α] {l : List (α × β)} {k : α} {v : β}
    (h : List.lookup k l = some v) : v ∈ l.map Prod.snd := by
  induction l with
  | nil => simp [List.lookup] at h
  | cons p ps ih =>
    obtain ⟨a, b⟩ := p
    rw [List.lookup_cons] at h
    split at h
    · simp only [Option.some.injEq] at h
      subst h
      simp
    · simpa using Or.inr (by simpa using ih h)

theorem TF_MAP_lookup_len {k v : Str} (h : List.lookup k TF_MAP = some v) :
    v.length = 1 := by
  have hv : ∀ x ∈ TF_MAP.map Prod.snd, List.length x = 1 := by decide
  exact hv v (lookup_mem_snd h)

theorem tidy_tf_upper_eq {a : Str} (h : strip a = a) :
    tidy_tf (upperStr a) =
      (match List.lookup (upperStr a) TF_MAP with
       | some v => v
       | none => (upperStr a).take 1) := by
  simp only [tidy_tf]
  rw [strip_upperStr, h, upperStr_idem]

theorem tidy_tf_len {a : Str} (h1 : strip a = a) (h2 : a ≠ []) :
    (tidy_tf (upperStr a)).length = 1 := by
  rw [tidy_tf_upper_eq h1]
  cases hl : List.lookup (upperStr a) TF_MAP with
  | some v => simp only [hl]; exact TF_MAP_lookup_len hl
  | none =>
    simp only [hl]
    cases hu : upperStr a with
    | nil => exact absurd hu (upperStr_ne_nil h2)
    | cons x xs => simp

/-! ### Parser structure lemmas -/

theorem commitQs_ans_nil {st : St} (h : st.ans = []) : commitQs st = st.qs := by
  unfold commitQs
  split
  · rfl
  · rw [if_neg]
    simp [h]

theorem headerStep_qs (st : St) (g rest : Str) :
    (headerStep st g rest).qs = commitQs st ∧ (headerStep st g rest).idx = some g := by
  unfold headerStep
  split <;> exact ⟨rfl, rfl⟩

theorem headerStep_congr {st st2 : St} (g rest : Str) (h : commitQs st = commitQs st2) :
    headerStep st g rest = headerStep st2 g rest := by
  unfold headerStep
  split <;> simp [h]

theorem stepLine_header {st : St} {txt g rest : Str}
    (h : q_head_match txt = some (g, rest)) :
    stepLine st txt = headerStep st g rest := by
  unfold stepLine
  rw [h]

theorem stepLine_marker {st : St} {txt tok : Str}
    (h1 : q_head_match txt = none) (h2 : ans_pat_search txt = some tok) :
    stepLine st txt =
      { st with ans := strip tok,
                opts := if opt_pat_match txt then st.opts ++ [strip (ans_pat_sub txt)]
                        else st.opts } := by
  unfold stepLine
  rw [h1, h2]

theorem stepLine_opt {st : St} {txt : Str}
    (h1 : q_head_match txt = none) (h2 : ans_pat_search txt = none)
    (h3 : opt_pat_match txt = true) :
    stepLine st txt = { st with opts := st.opts ++ [txt] } := by
  unfold stepLine
  rw [h1, h2]
  simp [h3]

theorem stepLine_bare {st : St} {txt : Str}
    (h1 : q_head_match txt = none) (h2 : ans_pat_search txt = none)
    (h3 : opt_pat_match txt = false) (h4 : optTruthy st.idx = true)
    (h5 : st.ans = []) (h6 : bare_ans_match txt = true) :
    stepLine st txt = { st with ans := txt } := by
  unfold stepLine
  rw [h1, h2]
  simp [h3, h4, h5, h6]

theorem stepLine_cont {st : St} {txt : Str}
    (h1 : q_head_match txt = none) (h2 : ans_pat_search txt = none)
    (h3 : opt_pat_match txt = false)
    (h4 : (optTruthy st.idx && st.ans.isEmpty && bare_ans_match txt) = false) :
    stepLine st txt = { st with stem := st.stem ++ (' ' :: txt) } := by
  unfold stepLine
  rw [h1, h2]
  simp [h3, h4]

theorem stepLine_nonheader_frame {st : St} {txt : Str} (h : q_head_match txt = none) :
    (stepLine st txt).qs = st.qs ∧ (stepLine st txt).idx = st.idx := by
  unfold stepLine
  simp only [h]
  split
  · exact ⟨rfl, rfl⟩
  · split
    · exact ⟨rfl, rfl⟩
    · split
      · exact ⟨rfl, rfl⟩
      · exact ⟨rfl, rfl⟩

theorem stepLine_nonmarker_ans {st : St} {txt : Str}
    (h1 : q_head_match txt = none) (h2 : ans_pat_search txt = none)
    (h5 : st.ans ≠ []) :
    (stepLine st txt).ans = st.ans := by
  unfold stepLine
  simp only [h1, h2]
  have he : st.ans.isEmpty = false := by
    simpa using h5
  split
  · rfl
  · split
    · rename_i hcond
      rw [he] at hcond
      simp at hcond
    · rfl

theorem stepPara_blank {st : St} {p : Str} (h : strip p = []) : stepPara st p = st := by
  simp [stepPara, h]

theorem stepPara_line {st : St} {p : Str} (h : strip p ≠ []) :
    stepPara st p = stepLine st (strip p) := by
  rw [stepPara]
  simp only [List.isEmpty_eq_true]
  rw [if_neg h]
/-- Every emitted Question arises from `build` applied to a non-empty,
already-stripped raw answer token. -/
def QFromBuild (q : Question) : Prop :=
  ∃ i s o a, a ≠ [] ∧ strip a = a ∧ q = build i s o a

/-- Invariant of the loop state: the accumulated answer is empty or a
stripped non-empty token, and all committed questions come from `build`. -/
def InvSt (st : St) : Prop :=
  (st.ans = [] ∨ (st.ans ≠ [] ∧ strip st.ans = st.ans)) ∧ ∀ q ∈ st.qs, QFromBuild q

theorem commitQs_idx_none {st : St} (h : st.idx = none) : commitQs st = st.qs := by
  unfold commitQs
  rw [h]

theorem commitQs_inv {st : St} (h : InvSt st) : ∀ q ∈ commitQs st, QFromBuild q := by
  intro q hq
  unfold commitQs at hq
  split at hq
  · exact h.2 q hq
  · rename_i i hidx
    split at hq
    · rename_i hc
      rw [List.mem_append] at hq
      rcases hq with hq | hq
      · exact h.2 q hq
      · simp only [List.mem_singleton] at hq
        subst hq
        have hans : st.ans ≠ [] := by
          rw [Bool.and_eq_true] at hc
          have := hc.2
          simp only [Bool.not_eq_true', List.isEmpty_eq_false] at this
          exact this
        rcases h.1 with h1 | h1
        · exact absurd h1 hans
        · exact ⟨i, st.stem, st.opts, st.ans, hans, h1.2, rfl⟩
    · exact h.2 q hq

theorem stepLine_inv {st : St} {txt : Str} (hI : InvSt st) (ht : strip txt = txt)
    (htn : txt ≠ []) : InvSt (stepLine st txt) := by
  cases hq : q_head_match txt with
  | some gr =>
    obtain ⟨g, rest⟩ := gr
    rw [stepLine_header hq]
    unfold headerStep
    cases hs : ans_pat_search rest with
    | some tok =>
      simp only [hs]
      refine ⟨Or.inr ⟨?_, strip_idem tok⟩, commitQs_inv hI⟩
      obtain ⟨hst, hne⟩ := ans_pat_search_strip hs
      rw [hst]
      exact hne
    | none =>
      simp only [hs]
      exact ⟨Or.inl rfl, commitQs_inv hI⟩
  | none =>
    cases hs : ans_pat_search txt with
    | some tok =>
      rw [stepLine_marker hq hs]
      refine ⟨Or.inr ⟨?_, strip_idem tok⟩, hI.2⟩
      obtain ⟨hst, hne⟩ := ans_pat_search_strip hs
      rw [hst]
      exact hne
    | none =>
      by_cases ho : opt_pat_match txt = true
      · rw [stepLine_opt hq hs ho]
        exact ⟨hI.1, hI.2⟩
      · have ho2 : opt_pat_match txt = false := by simpa using ho
        by_cases hb : (optTruthy st.idx && st.ans.isEmpty && bare_ans_match txt) = true
        · rw [Bool.and_eq_true, Bool.and_eq_true] at hb
          have h5 : st.ans = [] := by
            have := hb.1.2
            simpa using this
          rw [stepLine_bare hq hs ho2 hb.1.1 h5 hb.2]
          exact ⟨Or.inr ⟨htn, ht⟩, hI.2⟩
        · have hb2 : (optTruthy st.idx && st.ans.isEmpty && bare_ans_match txt) = false := by
            simpa using hb
          rw [stepLine_cont hq hs ho2 hb2]
          exact ⟨hI.1, hI.2⟩

theorem stepPara_inv {st : St} (p : Str) (hI : InvSt st) : InvSt (stepPara st p) := by
  by_cases h : strip p = []
  · rw [stepPara_blank h]
    exact hI
  · rw [stepPara_line h]
    exact stepLine_inv hI (strip_idem p) h

theorem fold_inv (paras : List Str) (st : St) (hI : InvSt st) :
    InvSt (paras.foldl stepPara st) := by
  induction paras generalizing st with
  | nil => exact hI
  | cons p ps ih => exact ih _ (stepPara_inv p hI)

theorem parse_mem_build (paras : List Str) (q : Question)
    (hq : q ∈ parse_docx paras) : QFromBuild q := by
  have hI : InvSt initSt := ⟨Or.inl rfl, fun q hq => absurd hq (List.not_mem_nil q)⟩
  exact commitQs_inv (fold_inv paras initSt hI) q hq

theorem stepPara_nonheader_frame (st : St) {p : Str} (h : q_head_match (strip p) = none) :
    (stepPara st p).qs = st.qs ∧ (stepPara st p).idx = st.idx := by
  by_cases hb : strip p = []
  · rw [stepPara_blank hb]
    exact ⟨rfl, rfl⟩
  · rw [stepPara_line hb]
    exact stepLine_nonheader_frame h

theorem fold_nonheader {pre : List Str} {st : St}
    (h : ∀ p ∈ pre, q_head_match (strip p) = none) :
    (pre.foldl stepPara st).qs = st.qs ∧ (pre.foldl stepPara st).idx = st.idx := by
  induction pre generalizing st with
  | nil => exact ⟨rfl, rfl⟩
  | cons p ps ih =>
    simp only [List.foldl_cons]
    obtain ⟨hq1, hi1⟩ := stepPara_nonheader_frame st (h p (by simp))
    obtain ⟨hq2, hi2⟩ := ih (fun x hx => h x (by simp [hx]))
    exact ⟨hq2.trans hq1, hi2.trans hi1⟩

theorem fold_eq_idx_none (paras : List Str) :
    ∀ st st2 : St, st.idx = none → st2.idx = none → st.qs = st2.qs →
      finalize (paras.foldl stepPara st) = finalize (paras.foldl stepPara st2) := by
  induction paras with
  | nil =>
    intro st st2 h1 h2 h3
    show commitQs st = commitQs st2
    rw [commitQs_idx_none h1, commitQs_idx_none h2, h3]
  | cons p ps ih =>
    intro st st2 h1 h2 h3
    simp only [List.foldl_cons]
    by_cases hh : q_head_match (strip p) = none
    · apply ih
      · exact (stepPara_nonheader_frame st hh).2.trans h1
      · exact (stepPara_nonheader_frame st2 hh).2.trans h2
      · obtain ⟨a1, _⟩ := stepPara_nonheader_frame st hh
        obtain ⟨a2, _⟩ := stepPara_nonheader_frame st2 hh
        rw [a1, a2, h3]
    · have hb : strip p ≠ [] := by
        intro hb
        apply hh
        rw [hb]
        rfl
      obtain ⟨g, rest, hgr⟩ : ∃ g rest, q_head_match (strip p) = some (g, rest) := by
        cases hq : q_head_match (strip p) with
        | none => exact absurd hq hh
        | some v =>
          obtain ⟨g, rest⟩ := v
          exact ⟨g, rest, rfl⟩
      have hc : commitQs st = commitQs st2 := by
        rw [commitQs_idx_none h1, commitQs_idx_none h2, h3]
      rw [stepPara_line hb, stepPara_line hb, stepLine_header hgr, stepLine_header hgr,
        headerStep_congr g rest hc]

theorem parse_docx_drop_pre (paras : List Str) :
    parse_docx paras =
      parse_docx (paras.dropWhile (fun p => (q_head_match (strip p)).isNone)) := by
  conv_lhs => rw [← List.takeWhile_append_dropWhile
      (fun p => (q_head_match (strip p)).isNone) paras]
  unfold parse_docx
  rw [List.foldl_append]
  have hpre : ∀ p ∈ paras.takeWhile (fun p => (q_head_match (strip p)).isNone),
      q_head_match (strip p) = none := by
    intro p hp
    have := List.mem_takeWhile_imp hp
    simpa [Option.isNone_iff_eq_none] using this
  apply fold_eq_idx_none
  · exact (fold_nonheader hpre).2
  · rfl
  · exact (fold_nonheader hpre).1


/-! ### build field lemmas -/

theorem build_options (i s : Str) (o : List Str) (a : Str) :
    (build i s o a).options = o := rfl

theorem build_qtype (i s : Str) (o : List Str) (a : Str) :
    (build i s o a).qtype = if o.length > 2 then ['m', 'c'] else ['t', 'f'] := rfl

theorem build_answer (i s : Str) (o : List Str) (a : Str) :
    (build i s o a).answer = if o.length > 2 then upperStr a else tidy_tf (upperStr a) := by
  by_cases ho : o.length > 2
  · simp [build, ho, show ((['m', 'c'] : Str) == ['t', 'f']) = false from by decide]
  · simp [build, ho, show ((['t', 'f'] : Str) == ['t', 'f']) = true from by decide]

theorem fold_filter_blank (paras : List Str) : ∀ st : St,
    List.foldl stepPara st (paras.filter (fun p => !(strip p).isEmpty)) =
      List.foldl stepPara st paras := by
  induction paras with
  | nil => intro st; rfl
  | cons p ps ih =>
    intro st
    by_cases h : strip p = []
    · rw [List.filter_cons_of_neg (by simp [h])]
      rw [List.foldl_cons, stepPara_blank h]
      exact ih st
    · rw [List.filter_cons_of_pos (by simp [h])]
      rw [List.foldl_cons, List.foldl_cons]
      exact ih (stepPara st p)
/-! ### The claims -/

/-- C1, counterexample: after an inline answer "A" has been recorded for
question 1, the later answer-marker line sets the emitted answer to "B" -- the
later marker token wins, not the first answer encountered. -/
theorem C1_counterexample :
    (parse_docx ["1. q 答案：A".data, "答案：B".data]).map Question.answer = [['B']] ∧
      (['B'] : Str) ≠ ['A'] := by decide

/-- C1, amended: once an answer is recorded, a later bare-answer line leaves
it unchanged, but a later answer-marker line always overwrites it with the
newly captured token; the emitted answer reflects the last marker token. -/
theorem C1_first_answer_policy :
    (∀ (st : St) (txt tok : Str), q_head_match txt = none →
        ans_pat_search txt = some tok → (stepLine st txt).ans = strip tok)
    ∧ (∀ (st : St) (txt : Str), st.ans ≠ [] → q_head_match txt = none →
        ans_pat_search txt = none → (stepLine st txt).ans = st.ans) := by
  constructor
  · intro st txt tok h1 h2
    rw [stepLine_marker h1 h2]
  · intro st txt h5 h1 h2
    exact stepLine_nonmarker_ans h1 h2 h5

/-- Witness for C1: a marker line "答案：B" overwrites a recorded "A", while a
bare letter line "B" leaves the recorded "A" unchanged. -/
theorem C1_witness :
    (stepLine { qs := [], idx := some ['1'], stem := ['q'], opts := [], ans := ['A'] }
        ("答案：B".data)).ans = strip ['B'] ∧
      (stepLine { qs := [], idx := some ['1'], stem := ['q'], opts := [], ans := ['A'] }
        ['B']).ans = ['A'] := by
  constructor
  · exact C1_first_answer_policy.1 _ _ _ (by decide) (by decide)
  · exact C1_first_answer_policy.2 _ _ (by decide) (by decide) (by decide)

/-- C2, counterexample: a multiple-choice question whose answer-marker token
is the true/false word 正确 is emitted with the two-character answer 正确,
not a single letter. -/
theorem C2_counterexample :
    (parse_docx ["1. q".data, "A、1".data, "B、2".data, "C、3".data,
        "答案：正确".data]).map Question.answer = [['正', '确']] ∧
      (['正', '确'] : Str).length ≠ 1 := by decide

/-- C2, amended: every emitted answer is non-empty, and for true-false
questions it is exactly one character (synonym table or first-character
fallback); for multiple-choice questions the raw token is upper-cased as-is
and may be longer than one character. -/
theorem C2_answer_shape :
    ∀ (paras : List Str) (q : Question), q ∈ parse_docx paras →
      q.answer ≠ [] ∧ (q.qtype = ['t', 'f'] → q.answer.length = 1) := by
  intro paras q hq
  obtain ⟨i, s, o, a, hne, hst, rfl⟩ := parse_mem_build paras q hq
  by_cases ho : o.length > 2
  · constructor
    · rw [build_answer, if_pos ho]
      exact upperStr_ne_nil hne
    · rw [build_qtype, if_pos ho]
      intro hh
      exact absurd hh (by decide)
  · have hlen : (build i s o a).answer.length = 1 := by
      rw [build_answer, if_neg ho]
      exact tidy_tf_len hst hne
    constructor
    · intro hnil
      rw [hnil] at hlen
      simp at hlen
    · intro _
      exact hlen

/-- The Question emitted for the input line "1. q 答案：A". -/
def qSample : Question :=
  { qid := ['1'], stem := ['q'], options := [], answer := ['A'], qtype := ['t', 'f'] }

/-- Witness for C2: the single question parsed from "1. q 答案：A" is emitted
with the non-empty single-letter answer "A". -/
theorem C2_witness :
    qSample.answer ≠ [] ∧ (qSample.qtype = ['t', 'f'] → qSample.answer.length = 1) :=
  C2_answer_shape ["1. q 答案：A".data] qSample (by decide)

/-- C3: at a boundary event (a new header line, or end of input) a question
whose state has recorded no answer is not committed to the bank -- the
question list is unchanged -- and parsing continues with the new header id. -/
theorem C3_unanswered_dropped :
    (∀ (st : St) (txt g rest : Str), st.ans = [] → q_head_match txt = some (g, rest) →
        (stepLine st txt).qs = st.qs ∧ (stepLine st txt).idx = some g)
    ∧ (∀ st : St, st.ans = [] → finalize st = st.qs) := by
  constructor
  · intro st txt g rest h hq
    rw [stepLine_header hq]
    obtain ⟨e1, e2⟩ := headerStep_qs st g rest
    exact ⟨by rw [e1, commitQs_ans_nil h], e2⟩
  · intro st h
    show commitQs st = st.qs
    exact commitQs_ans_nil h

/-- Witness for C3: an open, unanswered question 1 is dropped when header 2
arrives, and also at end of input. -/
theorem C3_witness :
    (stepLine { qs := [], idx := some ['1'], stem := "old".data, opts := [], ans := [] }
        ("2. next".data)).qs = [] ∧
      (stepLine { qs := [], idx := some ['1'], stem := "old".data, opts := [], ans := [] }
        ("2. next".data)).idx = some ['2'] ∧
      finalize { qs := [], idx := some ['1'], stem := "old".data, opts := [], ans := [] }
        = [] := by
  refine ⟨?_, ?_, ?_⟩
  · exact (C3_unanswered_dropped.1 _ _ ['2'] ("next".data) rfl (by decide)).1
  · exact (C3_unanswered_dropped.1 _ _ ['2'] ("next".data) rfl (by decide)).2
  · exact C3_unanswered_dropped.2 _ rfl

/-- C4: every emitted Question's kind is derived from its option count:
"mc" (multiple-choice) for more than two options, "tf" (true-false)
otherwise. -/
theorem C4_kind_from_option_count :
    ∀ (paras : List Str) (q : Question), q ∈ parse_docx paras →
      q.qtype = if 2 < q.options.length then ['m', 'c'] else ['t', 'f'] := by
  intro paras q hq
  obtain ⟨i, s, o, a, _, _, rfl⟩ := parse_mem_build paras q hq
  rw [build_qtype, build_options]

/-- Witness for C4: the zero-option question parsed from "1. q 答案：A" has
kind "tf". -/
theorem C4_witness :
    qSample.qtype =
      if 2 < qSample.options.length then ['m', 'c'] else ['t', 'f'] :=
  C4_kind_from_option_count ["1. q 答案：A".data] qSample (by decide)

/-- The answer normalisation performed by `build`, as a function of the raw
token and the option count (the source computes it inline in `build`). -/
def normalizeAns (ans_raw : Str) (optCount : Nat) : Str :=
  if optCount > 2 then upperStr ans_raw else tidy_tf (upperStr ans_raw)

/-- The normalizer as the spec words it: for at most two options, map the
token case-insensitively through the synonym table, falling back to its own
first character upper-cased; otherwise upper-case the token as-is. -/
def normalizeSpec (raw : Str) (optCount : Nat) : Str :=
  if optCount ≤ 2 then
    match List.lookup (upperStr raw) TF_MAP with
    | some v => v
    | none => upperStr (raw.take 1)
  else upperStr raw

/-- C5: `build` computes exactly `normalizeAns`, and on whitespace-free raw
tokens (all tokens the classifier can capture) `normalizeAns` agrees with the
spec's description of the normalizer; the function is total by construction. -/
theorem C5_normalizer_refinement :
    (∀ (i s : Str) (o : List Str) (a : Str),
        (build i s o a).answer = normalizeAns a o.length)
    ∧ (∀ (raw : Str) (n : Nat), strip raw = raw →
        normalizeAns raw n = normalizeSpec raw n) := by
  constructor
  · intro i s o a
    rw [build_answer]
    rfl
  · intro raw n h
    unfold normalizeAns normalizeSpec
    by_cases hn : n > 2
    · rw [if_pos hn, if_neg (by omega)]
    · rw [if_neg hn, if_pos (by omega), tidy_tf_upper_eq h]
      cases hl : List.lookup (upperStr raw) TF_MAP with
      | some v => simp [hl]
      | none =>
        simp only [hl]
        exact (List.map_take charUpper raw 1).symm
/-- Witness for C5: the true/false word 对 with zero options normalizes to
"A" under both the source computation and the spec description. -/
theorem C5_witness :
    strip "对".data = "对".data ∧
      normalizeAns "对".data 0 = normalizeSpec "对".data 0 :=
  ⟨by decide, C5_normalizer_refinement.2 "对".data 0 (by decide)⟩

/-- C6: the spec's scenario input yields exactly one Question with id "1",
stem "What is 2+2?", the three option lines, answer "B", and kind "mc"
(multiple-choice): the inline marker is split out of the header remainder. -/
theorem C6_scenario :
    parse_docx ["1. What is 2+2? 答案：B".data, "A、3".data, "B、4".data, "C、5".data] =
      [{ qid := ['1'], stem := "What is 2+2?".data,
         options := ["A、3".data, "B、4".data, "C、5".data],
         answer := ['B'], qtype := ['m', 'c'] }] := by decide

/-- C7, counterexample: with question 1 open and no answer set, the bare line
"E" is not recorded as an answer (the bare-answer pattern only accepts A-D);
it falls through to stem continuation. -/
theorem C7_counterexample :
    (stepLine { qs := [], idx := some ['1'], stem := ['q'], opts := [], ans := [] }
        ['E']).ans = [] ∧ ([] : Str) ≠ ['E'] := by decide

/-- The bare-answer tokens the source actually accepts: the letters A-D in
either case, and the four true/false words. -/
def bareTokens : List Str :=
  [['A'], ['B'], ['C'], ['D'], ['a'], ['b'], ['c'], ['d'],
   ['正', '确'], ['错', '误'], ['对'], ['错']]

/-- C7, amended: while a question is open and no answer is set, a line whose
trimmed content is a letter A-D (not E) or one of the true/false words is
recorded as the answer. -/
theorem C7_bare_answer_recorded :
    ∀ (st : St) (txt : Str), optTruthy st.idx = true → st.ans = [] →
      txt ∈ bareTokens → (stepLine st txt).ans = txt := by
  intro st txt h4 h5 hmem
  have key : ∀ t : Str, q_head_match t = none → ans_pat_search t = none →
      opt_pat_match t = false → bare_ans_match t = true → (stepLine st t).ans = t := by
    intro t a b c d
    rw [stepLine_bare a b c h4 h5 d]
  simp only [bareTokens, List.mem_cons, List.not_mem_nil, or_false] at hmem
  rcases hmem with rfl | rfl | rfl | rfl | rfl | rfl | rfl | rfl | rfl | rfl | rfl | rfl <;>
    exact key _ (by decide) (by decide) (by decide) (by decide)

/-- Witness for C7: the bare line 对 is recorded for an open, unanswered
question. -/
theorem C7_witness :
    (stepLine { qs := [], idx := some ['1'], stem := ['q'], opts := [], ans := [] }
        ['对']).ans = ['对'] :=
  C7_bare_answer_recorded _ _ (by decide) rfl (by decide)

/-- C8: the parse is a deterministic pure fold over the paragraph sequence:
two runs over the same sequence produce the same ordered Question list (the
source's parse loop reads nothing besides the paragraph texts). -/
theorem C8_deterministic :
    ∀ paras paras2 : List Str, paras = paras2 →
      parse_docx paras = parse_docx paras2 := by
  intro p1 p2 h
  rw [h]

/-- Witness for C8: two runs on a concrete two-line document agree. -/
theorem C8_witness :
    parse_docx ["2. sky".data, "对".data] = parse_docx ["2. sky".data, "对".data] :=
  C8_deterministic _ _ rfl

/-- C9: lines before the first header line never affect the output bank, and
a sequence with no header line at all yields the empty bank. -/
theorem C9_pre_header_ignored :
    (∀ paras : List Str, parse_docx paras =
        parse_docx (paras.dropWhile (fun p => (q_head_match (strip p)).isNone)))
    ∧ (∀ paras : List Str, (∀ p ∈ paras, (q_head_match (strip p)).isNone = true) →
        parse_docx paras = []) := by
  constructor
  · exact parse_docx_drop_pre
  · intro paras h
    rw [parse_docx_drop_pre]
    have hnil : paras.dropWhile (fun p => (q_head_match (strip p)).isNone) = [] := by
      rw [List.dropWhile_eq_nil_iff]
      exact h
    rw [hnil]
    rfl

/-- Witness for C9: a junk line and a pre-header answer-marker line are
discarded, and a header-free document parses to the empty bank. -/
theorem C9_witness :
    parse_docx ["junk".data, "答案：C".data, "1. q 答案：A".data] =
        parse_docx (["junk".data, "答案：C".data, "1. q 答案：A".data].dropWhile
          (fun p => (q_head_match (strip p)).isNone)) ∧
      parse_docx ["junk".data] = [] :=
  ⟨C9_pre_header_ignored.1 _, C9_pre_header_ignored.2 ["junk".data] (by decide)⟩

/-- C10: a blank (whitespace-only) paragraph leaves the parse state
unchanged, so filtering out all blank paragraphs yields the same bank. -/
theorem C10_blank_inert :
    (∀ (st : St) (p : Str), strip p = [] → stepPara st p = st)
    ∧ (∀ paras : List Str,
        parse_docx paras = parse_docx (paras.filter (fun p => !(strip p).isEmpty))) := by
  constructor
  · intro st p h
    exact stepPara_blank h
  · intro paras
    unfold parse_docx
    rw [fold_filter_blank]

/-- Witness for C10: a whitespace paragraph is a no-op on the initial state,
and dropping it from a concrete document leaves the bank unchanged. -/
theorem C10_witness :
    stepPara initSt "   ".data = initSt ∧
      parse_docx ["1. q 答案：B".data, "  ".data] =
        parse_docx (["1. q 答案：B".data, "  ".data].filter
          (fun p => !(strip p).isEmpty)) :=
  ⟨C10_blank_inert.1 initSt _ (by decide), C10_blank_inert.2 _⟩

end MoocPDF
